import Mathlib

/-!
Shallow embedding of the MAP price-compliance tool (src/index.tsx).

The embedding models the data-reconciliation core: the value normalizers
(`normalizeSku`, `parsePrice`, `parseDate`), the column mapper
(`colLetterToIndex`), the per-source import pipeline (`runImport`), and the
SKU-matching / violation-detection engine of `handleUploadPrices` together
with its lookup index (`vendorProductMap`) and summary statistics.

Conventions:
- JS numbers are embedded as rationals (`ℚ`); `parseFloat` failure (NaN)
  is `none`.
- JS `Map` objects and plain objects used as dictionaries are embedded as
  association lists with JS `Map.set` semantics (`mapSet`: replace in place,
  else append), which also matches plain-object key insertion order for the
  non-integer string keys used here.
- JS string `trim` / global single-character regex replacements are embedded
  as explicit character-list operations.
- `new Date(value)` parseability (used only by `parseDate`) is not decidable
  in the embedding; the import pipeline takes it as an explicit boolean
  oracle parameter `jsDate`, and every theorem holds for all oracles.
-/

/-! ## Character-level string helpers (JS `trim`, `replace(/x/g, y)`) -/

/-- Characters JS `String.prototype.trim` removes (the whitespace forms that
occur in the data of interest). -/
def jsWs (c : Char) : Bool := c.isWhitespace

/-- Drop leading and trailing whitespace from a character list. -/
def trimChars (l : List Char) : List Char :=
  ((l.dropWhile jsWs).reverse.dropWhile jsWs).reverse

/-- JS `s.trim()`. -/
def strTrim (s : String) : String := ⟨trimChars s.data⟩

/-- JS `s.replace(/c/g, d)` for single characters `c`, `d`. -/
def replaceAll (c d : Char) (s : String) : String :=
  ⟨s.data.map (fun x => if x = c then d else x)⟩

/-- JS `s.replace(/c/g, '')` for a single character `c`. -/
def removeAll (c : Char) (s : String) : String :=
  ⟨s.data.filter (fun x => x != c)⟩

/-- JS `s.toUpperCase()` (ASCII data only in this repository). -/
def strUpper (s : String) : String := ⟨s.data.map Char.toUpper⟩

/-- JS `s.toLowerCase()` (ASCII data only in this repository). -/
def strLower (s : String) : String := ⟨s.data.map Char.toLower⟩

/-- JS `s.includes(pat)`. -/
def containsSub (s pat : String) : Bool :=
  (List.range (s.data.length + 1)).any (fun i => pat.data.isPrefixOf (s.data.drop i))

/-- Helper of `jsSetList`: `seen` holds the elements already emitted. -/
def jsSetListAux (seen : List String) : List String → List String
  | [] => []
  | x :: xs =>
    if x ∈ seen then jsSetListAux seen xs
    else x :: jsSetListAux (x :: seen) xs

/-- JS `new Set([...])` iteration order: insertion order, first occurrence
kept. -/
def jsSetList (l : List String) : List String := jsSetListAux [] l

/-! ## Value normalizers (src/index.tsx lines 78-103) -/

/-- `normalizeSku` (src/index.tsx lines 78-85): empty input stays empty;
otherwise trim, and for the `nike` / `jordan` brand ids additionally replace
every hyphen by a space. `brandId = none` is the JS call with the argument
omitted. -/
def normalizeSku (sku : String) (brandId : Option String) : String :=
  if sku = "" then ""
  else if brandId = some "nike" ∨ brandId = some "jordan" then
    replaceAll '-' ' ' (strTrim sku)
  else strTrim sku

/-- The character filter of `parsePrice`: JS `replace(/[^0-9.-]+/g, "")`. -/
def cleanPriceChars (s : String) : List Char :=
  s.data.filter (fun c => c.isDigit || c == '.' || c == '-')

/-- Digit-list value, e.g. `['9','4'] ↦ 94`. -/
def digitsVal (l : List Char) : ℚ :=
  l.foldl (fun a c => 10 * a + ((c.toNat - 48 : ℕ) : ℚ)) 0

/-- JS `parseFloat` restricted to strings over `0-9`, `.`, `-` (all that can
reach it through `parsePrice`'s character filter; the stripped alphabet has no
exponent marker and no `+`): an optional leading `-`, then digits with at most
one decimal point; trailing garbage is ignored; no digits at all is NaN
(`none`). -/
def parseFloatQ (s : String) : Option ℚ :=
  let (sgn, cs) : ℚ × List Char :=
    match s.data with
    | '-' :: rest => (-1, rest)
    | l => (1, l)
  let intDigits := cs.takeWhile Char.isDigit
  let rest := cs.dropWhile Char.isDigit
  let fracDigits :=
    match rest with
    | '.' :: r => r.takeWhile Char.isDigit
    | _ => []
  if intDigits = [] ∧ fracDigits = [] then none
  else some (sgn * (digitsVal intDigits + digitsVal fracDigits / 10 ^ fracDigits.length))

/-- `parsePrice` (src/index.tsx lines 86-91): `null`/`undefined` give `null`;
otherwise strip every character that is not a digit, `.` or `-` and
`parseFloat` the rest, with NaN mapped to `null`. -/
def parsePrice (value : Option String) : Option ℚ :=
  match value with
  | none => none
  | some v => parseFloatQ ⟨cleanPriceChars v⟩

/-- `parseDate` (src/index.tsx lines 92-103): trim + uppercase; empty,
`ALWAYS ON` and `-` mean "no date"; otherwise the original text if the JS
`Date` parser accepts it (the oracle `jsDate`), else `null`. -/
def parseDate (jsDate : String → Bool) (value : String) : Option String :=
  let s := strUpper (strTrim value)
  if s = "" ∨ s = "ALWAYS ON" ∨ s = "-" then none
  else if jsDate value then some value else none

/-- `colLetterToIndex` (src/index.tsx lines 106-111): `-1` for empty,
multi-character or out-of-range input, else the zero-based column index of a
single letter `A`-`Z` (case-insensitive, trimmed). -/
def colLetterToIndex (letter : String) : Int :=
  if letter = "" then -1
  else
    match (strUpper (strTrim letter)).data with
    | [c] => if 'A' ≤ c ∧ c ≤ 'Z' then (c.toNat : Int) - 65 else -1
    | _ => -1

/-! ## Association lists with JS `Map` semantics -/

/-- Lookup in an association list (JS `Map.get` / object property read). -/
def mapGet {κ α : Type} [DecidableEq κ] (k : κ) : List (κ × α) → Option α
  | [] => none
  | e :: es => if e.1 = k then some e.2 else mapGet k es

/-- JS `Map.set` / object property write: replace the value at an existing
key in place, else append the new binding. -/
def mapSet {κ α : Type} [DecidableEq κ] (k : κ) (v : α) : List (κ × α) → List (κ × α)
  | [] => [(k, v)]
  | e :: es => if e.1 = k then (k, v) :: es else e :: mapSet k v es

/-! ## Data model -/

/-- Cell values stored in a product record: raw strings, parsed numbers, or
JS `null` (also standing for `undefined` written by the column mapper). -/
inductive Value where
  | str (s : String)
  | num (q : ℚ)
  | null
deriving DecidableEq

/-- JS truthiness of a `Value`. -/
def vTruthy : Value → Bool
  | .str s => s != ""
  | .num q => decide (q ≠ 0)
  | .null => false

/-- JS truthiness of an optional `Value` (`undefined` is falsy). -/
def optTruthy : Option Value → Bool
  | some v => vTruthy v
  | none => false

/-- One entry of `settings.dataSources` (src/index.tsx lines 37-48). -/
structure SourceConfig where
  id : String
  name : String
  url : String
  enabled : Bool
  headerRow : Nat
  tolerance : ℚ
  columns : List (String × String)

/-- A stored product record as the reconciliation engine reads it back from
the store: the store-assigned `id` plus the fields the engine touches. -/
structure Product where
  id : Nat
  brand : String
  sku : String
  price : Option ℚ
  tolerance : Option ℚ
deriving DecidableEq

/-- The per-product overlay `handleUploadPrices` computes (src/index.tsx
lines 798-801). -/
structure ComplianceResult where
  ourPrice : ℚ
  salePrice : Option ℚ
  mapPrice : ℚ
  isViolation : Bool
  difference : ℚ
deriving DecidableEq

/-- `settings.uploadColumnMapping`. -/
structure UploadMapping where
  sku : String
  price : String
  salePrice : String

/-- Summary statistics of a price check (src/index.tsx lines 634-638). -/
structure PriceCheckStats where
  productsChecked : Nat
  totalSavingsAtRisk : ℚ
  brandsAffected : List (String × Nat)

/-! ## Import pipeline (src/index.tsx lines 126-188) -/

/-- Field extraction + per-field normalization (src/index.tsx lines 161-171):
resolve the column letter; out-of-range or missing columns give `null`;
`price`/`msrp`/`exceptionPrice` go through `parsePrice`, field names
containing `date` go through `parseDate`, everything else stays a raw
string. -/
def extractValue (jsDate : String → Bool) (row : List String)
    (field columnLetter : String) : Value :=
  let columnIndex := colLetterToIndex columnLetter
  if columnIndex ≠ -1 ∧ columnIndex < (row.length : Int) then
    let cell := row.getD columnIndex.toNat ""
    if field = "price" ∨ field = "msrp" ∨ field = "exceptionPrice" then
      match parsePrice (some cell) with
      | some q => Value.num q
      | none => Value.null
    else if containsSub (strLower field) "date" then
      match parseDate jsDate cell with
      | some s => Value.str s
      | none => Value.null
    else Value.str cell
  else Value.null

/-- The record-object built for one data row before the SKU step
(src/index.tsx lines 158-171): `brand` and `tolerance` from the source
config, then one write per column-mapping entry. -/
def buildFieldsCore (src : SourceConfig) (jsDate : String → Bool)
    (row : List String) : List (String × Value) :=
  src.columns.foldl (fun fs fc => mapSet fc.1 (extractValue jsDate row fc.1 fc.2) fs)
    [("brand", Value.str src.name), ("tolerance", Value.num src.tolerance)]

/-- The SKU normalization step (src/index.tsx lines 173-175): if the `sku`
field is truthy, overwrite it with its brand-aware normalization. Only
`Value.str` and `Value.null` can reach the `sku` key (its field name hits
neither the price nor the date branch of `extractValue`), and of those only a
non-empty string is truthy. -/
def applySkuNorm (srcId : String) (fs : List (String × Value)) : List (String × Value) :=
  match mapGet "sku" fs with
  | some (Value.str s) =>
    if s ≠ "" then mapSet "sku" (Value.str (normalizeSku s (some srcId))) fs else fs
  | _ => fs

/-- One data row to one (pre-filter) product record. -/
def buildRawProduct (src : SourceConfig) (jsDate : String → Bool)
    (row : List String) : List (String × Value) :=
  applySkuNorm src.id (buildFieldsCore src jsDate row)

/-- The Adidas MAP-window row filter predicate (src/index.tsx line 148):
`row[mapWindowIndex]?.trim().toUpperCase() === 'MAP'` (out-of-bounds cells are
`undefined` and fail the comparison). -/
def adidasKeep (mapWindowIndex : Int) (row : List String) : Bool :=
  decide (mapWindowIndex < (row.length : Int)) &&
    (strUpper (strTrim (row.getD mapWindowIndex.toNat "")) == "MAP")

/-- The per-source pipeline from sliced data rows to the persisted batch
(src/index.tsx lines 142-178): optional Adidas filter, row mapping, and the
drop of rows whose `sku` field is falsy. -/
def importPipeline (src : SourceConfig) (jsDate : String → Bool)
    (dataRows : List (List String)) : List (List (String × Value)) :=
  let processedDataRows :=
    if src.id = "adidas" then
      let mapWindowIndex := colLetterToIndex ((mapGet "promotion" src.columns).getD "")
      if mapWindowIndex ≠ -1 then dataRows.filter (adidasKeep mapWindowIndex)
      else dataRows
    else dataRows
  (processedDataRows.map (buildRawProduct src jsDate)).filter
    (fun p => optTruthy (mapGet "sku" p))

/-- One source's import given its parsed sheet (src/index.tsx lines
136-178): the header-row bounds check (`throw` becomes the source-level
`Except.error` that `runImport`'s per-source catch turns into an error log),
then slicing away the rows at and above `headerRow` and running the
pipeline. -/
def importSourceFromRows (src : SourceConfig) (jsDate : String → Bool)
    (allRows : List (List String)) : Except String (List (List (String × Value))) :=
  if allRows.length < src.headerRow then
    Except.error "No data found or header row is out of bounds."
  else Except.ok (importPipeline src jsDate (allRows.drop src.headerRow))

/-- `runImport`'s per-source loop (src/index.tsx lines 132-186): enabled
sources with a URL are processed in order; a fetch failure or an import
failure is caught per source (logged, run continues). The result records, per
processed source, its error or its persisted-product count. -/
def runImportResults (sources : List SourceConfig)
    (fetched : String → Except String (List (List String)))
    (jsDate : String → Bool) : List (String × Except String Nat) :=
  (sources.filter (fun s => s.enabled && s.url != "")).map (fun s =>
    (s.id,
      match fetched s.id with
      | Except.error e => Except.error e
      | Except.ok allRows => Except.map List.length (importSourceFromRows s jsDate allRows)))

/-! ## Reconciliation engine (src/index.tsx lines 691-698 and 761-849) -/

/-- The brand id the index builder derives from a record's `brand`
(src/index.tsx line 694): `nike` whenever the lowercased brand name contains
`nike`, else the lowercased brand name. -/
def brandIdOf (brand : String) : Option String :=
  if containsSub (strLower brand) "nike" then some "nike" else some (strLower brand)

/-- The key under which the engine indexes a stored record. -/
def brandKey (p : Product) : String := normalizeSku p.sku (brandIdOf p.brand)

/-- `vendorProductMap` (src/index.tsx lines 691-698): normalized SKU →
record, over the full store. -/
def vendorProductMap (products : List Product) : List (String × Product) :=
  products.foldl (fun m p => mapSet (brandKey p) p m) []

/-- Modelled from the spec (§4.4 step 1, the claim under review): an index
over the full store keyed by the default, brand-agnostic normalization of
each record's SKU. Used only to compare the code's `vendorProductMap`
against the spec's description. -/
def vendorProductMapSpec (products : List Product) : List (String × Product) :=
  products.foldl (fun m p => mapSet (normalizeSku p.sku none) p m) []

/-- The candidate SKU strings for one uploaded row (src/index.tsx lines
773-778), in JS `Set` iteration order. -/
def candidatesOf (raw : String) : List String :=
  jsSetList [raw, replaceAll '-' ' ' raw, removeAll ' ' raw, removeAll '-' raw]

/-- The two lookups tried for one candidate (src/index.tsx lines 781-788):
default normalization first, then the brand-specific hyphen→space
normalization. -/
def tryCand (vmap : List (String × Product)) (sku : String) : Option Product :=
  (mapGet (normalizeSku sku none) vmap) <|> (mapGet (normalizeSku sku (some "nike")) vmap)

/-- The whole matching phase for one uploaded row: rows with an empty
(trimmed) SKU are skipped (src/index.tsx line 771), otherwise the candidates
are tried in order, first match wins. -/
def lookupVendor (vmap : List (String × Product)) (raw : String) : Option Product :=
  if raw = "" then none else (candidatesOf raw).findSome? (tryCand vmap)

/-- The matching procedure as the spec words it (§4.4 steps 2-3): the four
candidate strings in order, without the `Set` deduplication, each looked up
under the default then the hyphen→space normalization, first hit wins. Used
to compare the code's matching against the spec's description. -/
def specMatch (vmap : List (String × Product)) (raw : String) : Option Product :=
  tryCand vmap raw <|> tryCand vmap (replaceAll '-' ' ' raw)
    <|> tryCand vmap (removeAll ' ' raw) <|> tryCand vmap (removeAll '-' raw)

/-- `String(row[mapping.sku] || '').trim()` (src/index.tsx line 770). -/
def rawSkuOf (m : UploadMapping) (row : List (String × String)) : String :=
  strTrim ((mapGet m.sku row).getD "")

/-- `parsePrice(row[mapping.price])` (src/index.tsx line 791). -/
def ourPriceOf (m : UploadMapping) (row : List (String × String)) : Option ℚ :=
  parsePrice (mapGet m.price row)

/-- `row[mapping.salePrice] ? parsePrice(row[mapping.salePrice]) : null`
(src/index.tsx line 792): the sale-price cell must be present and truthy
(non-empty) to even be parsed. -/
def salePriceOf (m : UploadMapping) (row : List (String × String)) : Option ℚ :=
  match mapGet m.salePrice row with
  | some s => if s = "" then none else parsePrice (some s)
  | none => none

/-- Processing of one uploaded row (src/index.tsx lines 769-803): match the
SKU, parse the prices, and — when the matched record has a MAP price and the
row's price parsed — produce the compliance overlay keyed by the matched
record's id. Rows failing any of these produce nothing. -/
def processUploadRow (m : UploadMapping) (vmap : List (String × Product))
    (row : List (String × String)) : Option (Nat × ComplianceResult) :=
  match lookupVendor vmap (rawSkuOf m row) with
  | none => none
  | some vendorProduct =>
    let ourPrice := ourPriceOf m row
    let salePrice := salePriceOf m row
    match vendorProduct.price, ourPrice with
    | some mapPrice, some our =>
      let priceToCheck := salePrice.getD our
      some (vendorProduct.id,
        { ourPrice := our
          salePrice := salePrice
          mapPrice := mapPrice
          isViolation := decide (priceToCheck < mapPrice - vendorProduct.tolerance.getD 0)
          difference := priceToCheck - mapPrice })
    | _, _ => none

/-- The `priceDataMap` built over all uploaded rows (src/index.tsx lines
767-804): a JS `Map` keyed by matched product id, later rows overwriting
earlier ones. -/
def reconcileMap (m : UploadMapping) (products : List Product)
    (rows : List (List (String × String))) : List (Nat × ComplianceResult) :=
  let vmap := vendorProductMap products
  rows.foldl (fun pm row =>
    match processUploadRow m vmap row with
    | some (pid, r) => mapSet pid r pm
    | none => pm) []

/-- `checkedAndUpdatedProducts` (src/index.tsx lines 808-816): the stored
products that received an overlay, in store order, paired with their
overlay. -/
def checkedOf (ps : List Product) (pm : List (Nat × ComplianceResult)) :
    List (Product × ComplianceResult) :=
  ps.filterMap (fun p => (mapGet p.id pm).map (fun r => (p, r)))

/-- Insertion into a count list sorted descending; models the effect of the
JS `sort((a, b) => b.count - a.count)` comparator. -/
def insertDesc (x : String × Nat) : List (String × Nat) → List (String × Nat)
  | [] => [x]
  | y :: ys => if y.2 < x.2 then x :: y :: ys else y :: insertDesc x ys

/-- Sorting by count descending (src/index.tsx line 828). -/
def sortDescCount (l : List (String × Nat)) : List (String × Nat) :=
  l.foldr insertDesc []

/-- `brandsAffectedMap` (src/index.tsx lines 820-825): per-brand violation
counts, skipping falsy (empty) brand names. -/
def brandViolationCounts (violations : List (Product × ComplianceResult)) :
    List (String × Nat) :=
  violations.foldl (fun acc pr =>
    if pr.1.brand = "" then acc
    else mapSet pr.1.brand ((mapGet pr.1.brand acc).getD 0 + 1) acc) []

/-- The summary statistics of `handleUploadPrices` (src/index.tsx lines
806-834): checked count = `priceDataMap.size`, savings at risk = sum of
`Math.abs(difference)` over the checked products flagged as violations,
brands affected sorted by violation count descending. -/
def computeStats (ps : List Product) (pm : List (Nat × ComplianceResult)) :
    PriceCheckStats :=
  let checked := checkedOf ps pm
  let violations := checked.filter (fun pr => pr.2.isViolation)
  { productsChecked := pm.length
    totalSavingsAtRisk := (violations.map (fun pr => |pr.2.difference|)).sum
    brandsAffected := sortDescCount (brandViolationCounts violations) }

/-- Savings at risk as the spec words it (§4.5): the sum of the absolute
`difference` over exactly the produced overlays flagged as violations. -/
def specSavingsAtRisk (pm : List (Nat × ComplianceResult)) : ℚ :=
  ((pm.filter (fun e => e.2.isViolation)).map (fun e => |e.2.difference|)).sum

/-- Descending order on count entries. -/
def descRel (x y : String × Nat) : Prop := y.2 ≤ x.2

/-! ## Concrete fixtures for witnesses and counterexamples -/

/-- The default `uploadColumnMapping` (src/index.tsx line 47). -/
def m0 : UploadMapping := ⟨"sku", "price", "salePrice"⟩

/-- A date-parse oracle rejecting everything (no claim depends on the JS
`Date` parser). -/
def jdNo : String → Bool := fun _ => false

def prodTol5 : Product :=
  { id := 1, brand := "Puma", sku := "AB 123", price := some 100, tolerance := some 5 }

def prodNoTol : Product :=
  { id := 2, brand := "Puma", sku := "CD 9", price := some 100, tolerance := none }

def prodC3 : Product :=
  { id := 3, brand := "Puma", sku := "N123", price := some 100, tolerance := some 0 }

def rowAt95 : List (String × String) := [("sku", "AB 123"), ("price", "95")]

def rowAt9499 : List (String × String) := [("sku", "AB 123"), ("price", "94.99")]

def rowNoTol : List (String × String) := [("sku", "CD 9"), ("price", "99.99")]

def rowC3 : List (String × String) :=
  [("sku", "N123"), ("price", "110"), ("salePrice", "90")]

def cfgHdr3 : SourceConfig :=
  { id := "puma", name := "Puma", url := "u", enabled := true, headerRow := 3,
    tolerance := 5/100, columns := [("sku", "A"), ("price", "B")] }

def cfgHdr6 : SourceConfig :=
  { id := "a", name := "A", url := "u", enabled := true, headerRow := 6,
    tolerance := 5/100, columns := [("sku", "A"), ("price", "B")] }

def cfgB : SourceConfig :=
  { id := "b", name := "B", url := "u", enabled := true, headerRow := 1,
    tolerance := 5/100, columns := [("sku", "A"), ("price", "B")] }

def rows5 : List (List String) :=
  [["h"], ["h"], ["h"], ["S4", "10"], ["S5", "20"]]

def rowsB : List (List String) := [["h"], ["S1", "9"]]

def fetchedDemo : String → Except String (List (List String)) :=
  fun sid => if sid = "a" then Except.ok rows5 else Except.ok rowsB

def cfgC6 : SourceConfig :=
  { id := "nike", name := "Nike / Jordan", url := "u", enabled := true, headerRow := 1,
    tolerance := 5/100, columns := [("sku", "A"), ("price", "B")] }

def rowsC6 : List (List String) := [["sku", "price"], ["-", "-5"]]

def cfg3row : SourceConfig :=
  { id := "puma", name := "Puma", url := "u", enabled := true, headerRow := 1,
    tolerance := 5/100, columns := [("sku", "A"), ("price", "B")] }

def rows3row : List (List String) :=
  [["h1", "h2"], ["A1", "10"], ["", "20"], ["C3", "30"]]

def fsA1 : List (String × Value) :=
  [("brand", Value.str "Puma"), ("tolerance", Value.num (1/20)),
   ("sku", Value.str "A1"), ("price", Value.num 10)]

def fsC3 : List (String × Value) :=
  [("brand", Value.str "Puma"), ("tolerance", Value.num (1/20)),
   ("sku", Value.str "C3"), ("price", Value.num 30)]

def prodNikeC8 : Product :=
  { id := 7, brand := "Nike / Jordan", sku := "AB-1", price := none,
    tolerance := none }

def ps9 : List Product :=
  [{ id := 1, brand := "Puma", sku := "P1", price := some 100, tolerance := some 0 }]

def rows9 : List (List (String × String)) := [[("sku", "P1"), ("price", "90")]]

/-! ## Lemmas about the map embedding -/

theorem mapGet_mapSet_self {κ α : Type} [DecidableEq κ] (k : κ) (v : α) :
    ∀ m : List (κ × α), mapGet k (mapSet k v m) = some v := by
  intro m
  induction m with
  | nil => simp [mapGet, mapSet]
  | cons e es ih =>
    by_cases h : e.1 = k
    · simp [mapGet, mapSet, h]
    · simp [mapGet, mapSet, h, ih]

theorem mapGet_mapSet_other {κ α : Type} [DecidableEq κ] (k k' : κ) (v : α)
    (h : k' ≠ k) : ∀ m : List (κ × α), mapGet k' (mapSet k v m) = mapGet k' m := by
  intro m
  induction m with
  | nil => simp [mapGet, mapSet, Ne.symm h]
  | cons e es ih =>
    by_cases he : e.1 = k
    · rw [show mapSet k v (e :: es) = (k, v) :: es by simp [mapSet, he]]
      simp [mapGet, Ne.symm h, he]
    · rw [show mapSet k v (e :: es) = e :: mapSet k v es by simp [mapSet, he]]
      by_cases he' : e.1 = k'
      · simp [mapGet, he']
      · simp [mapGet, he', ih]

/-! ## Lemmas about the matching phase -/

theorem findSome?_jsSetListAux {β : Type} (f : String → Option β) :
    ∀ (l seen : List String), (∀ x ∈ seen, f x = none) →
      (jsSetListAux seen l).findSome? f = l.findSome? f := by
  intro l
  induction l with
  | nil => intro seen _; rfl
  | cons x xs ih =>
    intro seen h
    by_cases hx : x ∈ seen
    · rw [show jsSetListAux seen (x :: xs) = jsSetListAux seen xs by
        simp [jsSetListAux, hx]]
      rw [ih seen h]
      simp [List.findSome?_cons, h x hx]
    · rw [show jsSetListAux seen (x :: xs) = x :: jsSetListAux (x :: seen) xs by
        simp [jsSetListAux, hx]]
      cases hfx : f x with
      | some b => simp [List.findSome?_cons, hfx]
      | none =>
        simp only [List.findSome?_cons, hfx]
        exact ih (x :: seen) (by
          intro y hy
          rcases List.mem_cons.mp hy with hy | hy
          · exact hy ▸ hfx
          · exact h y hy)

theorem findSome?_four {α β : Type} (f : α → Option β) (a b c d : α) :
    List.findSome? f [a, b, c, d] = (f a <|> f b <|> f c <|> f d) := by
  cases ha : f a <;> cases hb : f b <;> cases hc : f c <;> cases hd : f d <;>
    simp [List.findSome?_cons, List.findSome?_nil, ha, hb, hc, hd]

/-! ## Claim theorems -/

/-- C1: for every matched uploaded row with numeric `ourPrice` and non-null
`mapPrice`, the engine sets `isViolation` to true exactly when the price used
is strictly less than `mapPrice` minus the matched record's tolerance
(defaulting to 0 when absent); with `mapPrice = 100`, `tolerance = 5`,
`priceUsed = 95` is not a violation and `priceUsed = 94.99` is. -/
theorem c1_isViolation_rule :
    (∀ (m : UploadMapping) (vmap : List (String × Product))
        (row : List (String × String)) (p : Product) (pid : Nat) (r : ComplianceResult),
        lookupVendor vmap (rawSkuOf m row) = some p →
        processUploadRow m vmap row = some (pid, r) →
        (r.isViolation = true ↔
          r.salePrice.getD r.ourPrice < r.mapPrice - p.tolerance.getD 0))
    ∧ processUploadRow m0 (vendorProductMap [prodTol5]) rowAt95
        = some (1, ⟨95, none, 100, false, -5⟩)
    ∧ processUploadRow m0 (vendorProductMap [prodTol5]) rowAt9499
        = some (1, ⟨9499/100, none, 100, true, -501/100⟩)
    ∧ processUploadRow m0 (vendorProductMap [prodNoTol]) rowNoTol
        = some (2, ⟨9999/100, none, 100, true, -1/100⟩) := by
  refine ⟨?_, ?_, ?_, ?_⟩
  · intro m vmap row p pid r h1 h2
    cases hp : p.price with
    | none => simp [processUploadRow, h1, hp] at h2
    | some mapPrice =>
      cases ho : ourPriceOf m row with
      | none => simp [processUploadRow, h1, hp, ho] at h2
      | some our =>
        simp only [processUploadRow, h1, hp, ho, Option.some.injEq, Prod.mk.injEq] at h2
        rw [← h2.2]
        simp [decide_eq_true_iff]
  · simp +decide [processUploadRow, lookupVendor, rawSkuOf, ourPriceOf, salePriceOf,
      candidatesOf, jsSetList, jsSetListAux, tryCand, mapGet, vendorProductMap, brandKey,
      brandIdOf, normalizeSku, strTrim, trimChars, replaceAll, removeAll, strLower,
      strUpper, containsSub, parsePrice, parseFloatQ, cleanPriceChars, digitsVal, mapSet,
      jsWs, m0, prodTol5, rowAt95]
    all_goals norm_num
  · simp +decide [processUploadRow, lookupVendor, rawSkuOf, ourPriceOf, salePriceOf,
      candidatesOf, jsSetList, jsSetListAux, tryCand, mapGet, vendorProductMap, brandKey,
      brandIdOf, normalizeSku, strTrim, trimChars, replaceAll, removeAll, strLower,
      strUpper, containsSub, parsePrice, parseFloatQ, cleanPriceChars, digitsVal, mapSet,
      jsWs, m0, prodTol5, rowAt9499]
    all_goals norm_num
  · simp +decide [processUploadRow, lookupVendor, rawSkuOf, ourPriceOf, salePriceOf,
      candidatesOf, jsSetList, jsSetListAux, tryCand, mapGet, vendorProductMap, brandKey,
      brandIdOf, normalizeSku, strTrim, trimChars, replaceAll, removeAll, strLower,
      strUpper, containsSub, parsePrice, parseFloatQ, cleanPriceChars, digitsVal, mapSet,
      jsWs, m0, prodNoTol, rowNoTol]
    all_goals norm_num

/-- Witness for C1 at a concrete matched row (the 94.99 boundary case). -/
theorem c1_isViolation_rule_witness :
    lookupVendor (vendorProductMap [prodTol5]) (rawSkuOf m0 rowAt9499) = some prodTol5
    ∧ ((⟨9499/100, none, 100, true, -501/100⟩ : ComplianceResult).isViolation = true ↔
        (Option.none.getD (9499/100 : ℚ) < 100 - (some (5:ℚ)).getD 0)) := by
  constructor
  · simp +decide [lookupVendor, rawSkuOf, candidatesOf, jsSetList, jsSetListAux, tryCand,
      mapGet, vendorProductMap, brandKey, brandIdOf, normalizeSku, strTrim, trimChars,
      replaceAll, removeAll, strLower, strUpper, containsSub, mapSet, jsWs, m0, prodTol5,
      rowAt9499]
  · exact c1_isViolation_rule.1 m0 (vendorProductMap [prodTol5]) rowAt9499 prodTol5 1
      ⟨9499/100, none, 100, true, -501/100⟩
      (by simp +decide [lookupVendor, rawSkuOf, candidatesOf, jsSetList, jsSetListAux,
        tryCand, mapGet, vendorProductMap, brandKey, brandIdOf, normalizeSku, strTrim,
        trimChars, replaceAll, removeAll, strLower, strUpper, containsSub, mapSet, jsWs,
        m0, prodTol5, rowAt9499])
      (c1_isViolation_rule.2.2.1)

/-- C2: SKU matching tries, in order, the four candidate strings (raw
trimmed, hyphens→spaces, spaces removed, hyphens removed), each looked up
first under default normalization then under the hyphen→space normalization,
first hit wins (the `Set` deduplication never changes the outcome);
consequently a stored SKU `AB 123` is matched by an uploaded `AB-123`. -/
theorem c2_match_order :
    (∀ (vmap : List (String × Product)) (raw : String), raw ≠ "" →
        lookupVendor vmap raw = specMatch vmap raw)
    ∧ lookupVendor (vendorProductMap [prodTol5]) "AB-123" = some prodTol5 := by
  constructor
  · intro vmap raw hraw
    rw [lookupVendor, if_neg hraw, candidatesOf, jsSetList]
    rw [findSome?_jsSetListAux (tryCand vmap) _ [] (by intro x hx; cases hx)]
    rw [findSome?_four]
    rfl
  · simp +decide [lookupVendor, candidatesOf, jsSetList, jsSetListAux, tryCand,
      mapGet, vendorProductMap, brandKey, brandIdOf, normalizeSku, strTrim, trimChars,
      replaceAll, removeAll, strLower, strUpper, containsSub, mapSet, jsWs, prodTol5]

/-- Witness for C2 at the concrete uploaded SKU `AB-123`. -/
theorem c2_match_order_witness :
    ("AB-123" : String) ≠ ""
    ∧ lookupVendor (vendorProductMap [prodTol5]) "AB-123"
        = specMatch (vendorProductMap [prodTol5]) "AB-123" :=
  ⟨by decide, c2_match_order.1 (vendorProductMap [prodTol5]) "AB-123" (by decide)⟩

/-- C3: the price used in the violation check is the parsed sale price when
the sale-price cell is present and parses, else the parsed our-price, and the
recorded difference is that price minus `mapPrice` (signed); with
`ourPrice = 110`, `salePrice = 90`, `mapPrice = 100`, `tolerance = 0` the
engine uses 90, flags a violation and records `difference = -10`. -/
theorem c3_price_used :
    (∀ (m : UploadMapping) (vmap : List (String × Product))
        (row : List (String × String)) (pid : Nat) (r : ComplianceResult),
        processUploadRow m vmap row = some (pid, r) →
        ourPriceOf m row = some r.ourPrice
        ∧ r.salePrice = salePriceOf m row
        ∧ r.difference = r.salePrice.getD r.ourPrice - r.mapPrice)
    ∧ processUploadRow m0 (vendorProductMap [prodC3]) rowC3
        = some (3, ⟨110, some 90, 100, true, -10⟩) := by
  constructor
  · intro m vmap row pid r h
    cases hl : lookupVendor vmap (rawSkuOf m row) with
    | none => simp [processUploadRow, hl] at h
    | some p =>
      cases hp : p.price with
      | none => simp [processUploadRow, hl, hp] at h
      | some mapPrice =>
        cases ho : ourPriceOf m row with
        | none => simp [processUploadRow, hl, hp, ho] at h
        | some our =>
          simp only [processUploadRow, hl, hp, ho, Option.some.injEq, Prod.mk.injEq] at h
          rw [← h.2]
          exact ⟨ho.symm ▸ rfl, rfl, rfl⟩
  · simp +decide [processUploadRow, lookupVendor, rawSkuOf, ourPriceOf, salePriceOf,
      candidatesOf, jsSetList, jsSetListAux, tryCand, mapGet, vendorProductMap, brandKey,
      brandIdOf, normalizeSku, strTrim, trimChars, replaceAll, removeAll, strLower,
      strUpper, containsSub, parsePrice, parseFloatQ, cleanPriceChars, digitsVal, mapSet,
      jsWs, m0, prodC3, rowC3]
    all_goals norm_num

/-- Witness for C3 at the concrete sale-price-precedence row. -/
theorem c3_price_used_witness :
    processUploadRow m0 (vendorProductMap [prodC3]) rowC3
      = some (3, ⟨110, some 90, 100, true, -10⟩)
    ∧ (ourPriceOf m0 rowC3 = some (110 : ℚ)
        ∧ (some (90 : ℚ)) = salePriceOf m0 rowC3
        ∧ (-10 : ℚ) = (some (90 : ℚ)).getD 110 - 100) :=
  ⟨c3_price_used.2, c3_price_used.1 m0 (vendorProductMap [prodC3]) rowC3 3
    ⟨110, some 90, 100, true, -10⟩ c3_price_used.2⟩

/-- C4: an uploaded row produces a compliance overlay exactly when some
candidate SKU matches a stored record, the row's price cell parses to a
number, and the matched record's stored price is non-null; rows failing any
of these are excluded from the result entirely. -/
theorem c4_row_inclusion :
    ∀ (m : UploadMapping) (vmap : List (String × Product))
      (row : List (String × String)),
      (processUploadRow m vmap row).isSome ↔
        ∃ p, lookupVendor vmap (rawSkuOf m row) = some p
          ∧ (ourPriceOf m row).isSome ∧ p.price.isSome := by
  intro m vmap row
  cases hl : lookupVendor vmap (rawSkuOf m row) with
  | none => simp [processUploadRow, hl]
  | some p =>
    cases hp : p.price with
    | none => simp [processUploadRow, hl, hp]
    | some mapPrice =>
      cases ho : ourPriceOf m row with
      | none => simp [processUploadRow, hl, hp, ho]
      | some our => simp [processUploadRow, hl, hp, ho]

/-- C5: the data rows of a source import are exactly the parsed rows strictly
after the 1-based `headerRow` position (`headerRow = 3` on a 5-row sheet
gives exactly 2 data rows), and a `headerRow` beyond the sheet's length makes
that source fail with a source-level error while the run, here modelled over
a two-source setting, continues with the next source. -/
theorem c5_header_slice :
    (∀ (src : SourceConfig) (allRows : List (List String)) (jsDate : String → Bool),
        (allRows.length < src.headerRow →
          importSourceFromRows src jsDate allRows
            = Except.error "No data found or header row is out of bounds.")
        ∧ (src.headerRow ≤ allRows.length →
            importSourceFromRows src jsDate allRows
              = Except.ok (importPipeline src jsDate (allRows.drop src.headerRow))
            ∧ (allRows.drop src.headerRow).length = allRows.length - src.headerRow
            ∧ ∀ i : Nat, (allRows.drop src.headerRow)[i]? = allRows[src.headerRow + i]?))
    ∧ Except.map List.length (importSourceFromRows cfgHdr3 jdNo rows5) = Except.ok 2
    ∧ runImportResults [cfgHdr6, cfgB] fetchedDemo jdNo
        = [("a", Except.error "No data found or header row is out of bounds."),
           ("b", Except.ok 1)] := by
  refine ⟨?_, by rfl, by rfl⟩
  intro src allRows jsDate
  constructor
  · intro h
    simp [importSourceFromRows, h]
  · intro h
    refine ⟨?_, List.length_drop _ _, fun i => List.getElem?_drop _ _ _⟩
    simp [importSourceFromRows, Nat.not_lt.mpr h]

/-- Witness for C5: both branches at concrete inputs (`headerRow = 6` on the
5-row sheet fails; `headerRow = 3` on it yields 2 data rows). -/
theorem c5_header_slice_witness :
    (rows5.length < cfgHdr6.headerRow
      ∧ importSourceFromRows cfgHdr6 jdNo rows5
          = Except.error "No data found or header row is out of bounds.")
    ∧ (cfgHdr3.headerRow ≤ rows5.length
      ∧ (rows5.drop cfgHdr3.headerRow).length = rows5.length - cfgHdr3.headerRow) :=
  ⟨⟨by decide, (c5_header_slice.1 cfgHdr6 rows5 jdNo).1 (by decide)⟩,
   ⟨by decide, ((c5_header_slice.1 cfgHdr3 rows5 jdNo).2 (by decide)).2.1⟩⟩

/-! ## Lemmas about the record-building fold -/

theorem mapGet_buildFold (g : String × String → Value) (key : String) :
    ∀ (l : List (String × String)) (acc : List (String × Value)),
      mapGet key (l.foldl (fun fs fc => mapSet fc.1 (g fc) fs) acc) = mapGet key acc
      ∨ ∃ fc ∈ l, fc.1 = key ∧
          mapGet key (l.foldl (fun fs fc => mapSet fc.1 (g fc) fs) acc) = some (g fc) := by
  intro l
  induction l with
  | nil => intro acc; left; rfl
  | cons fc l ih =>
    intro acc
    rw [List.foldl_cons]
    rcases ih (mapSet fc.1 (g fc) acc) with h | ⟨fc', hmem, hkey, heq⟩
    · by_cases hk : fc.1 = key
      · right
        exact ⟨fc, List.mem_cons_self _ _, hk, by rw [h, hk, mapGet_mapSet_self]⟩
      · left
        rw [h, mapGet_mapSet_other _ _ _ (fun he => hk he.symm)]
    · right
      exact ⟨fc', List.mem_cons_of_mem _ hmem, hkey, heq⟩

/-- The value the column mapper can put under the `price` field: always a
parsed number or `null`, never a raw string. -/
theorem extractValue_price_shape (jsDate : String → Bool) (row : List String)
    (letter : String) :
    extractValue jsDate row "price" letter = Value.null
    ∨ ∃ q, extractValue jsDate row "price" letter = Value.num q := by
  rw [extractValue]
  split
  · rw [if_pos (Or.inl rfl)]
    split
    · right; exact ⟨_, rfl⟩
    · left; rfl
  · left; rfl

/-- The value the column mapper can put under the `sku` field: a raw string
or `null` (its name hits neither the price list nor the date branch). -/
theorem extractValue_sku_shape (jsDate : String → Bool) (row : List String)
    (letter : String) :
    (∃ s, extractValue jsDate row "sku" letter = Value.str s)
    ∨ extractValue jsDate row "sku" letter = Value.null := by
  rw [extractValue]
  split
  · rw [if_neg (by decide), if_neg (by decide)]
    exact Or.inl ⟨_, rfl⟩
  · right; rfl

/-- Shape of the `price` field of a built record. -/
theorem buildRawProduct_price_shape (src : SourceConfig) (jsDate : String → Bool)
    (row : List String) :
    mapGet "price" (buildRawProduct src jsDate row) = none
    ∨ mapGet "price" (buildRawProduct src jsDate row) = some Value.null
    ∨ ∃ q, mapGet "price" (buildRawProduct src jsDate row) = some (Value.num q) := by
  have hcore :
      mapGet "price" (buildFieldsCore src jsDate row) = none
      ∨ mapGet "price" (buildFieldsCore src jsDate row) = some Value.null
      ∨ ∃ q, mapGet "price" (buildFieldsCore src jsDate row) = some (Value.num q) := by
    rcases mapGet_buildFold (fun fc => extractValue jsDate row fc.1 fc.2)
      "price" src.columns
      [("brand", Value.str src.name), ("tolerance", Value.num src.tolerance)] with h | ⟨fc, _, hkey, heq⟩
    · left
      rw [buildFieldsCore, h]
      simp [mapGet]
    · rw [buildFieldsCore, heq, hkey]
      rcases extractValue_price_shape jsDate row fc.2 with h' | ⟨q, h'⟩
      · right; left; rw [h']
      · right; right; exact ⟨q, by rw [h']⟩
  have hpres : mapGet "price" (buildRawProduct src jsDate row)
      = mapGet "price" (buildFieldsCore src jsDate row) := by
    cases hsku : mapGet "sku" (buildFieldsCore src jsDate row) with
    | none => rw [buildRawProduct, applySkuNorm, hsku]
    | some v =>
      cases v with
      | str s =>
        have happ : buildRawProduct src jsDate row
            = if s ≠ "" then
                mapSet "sku" (Value.str (normalizeSku s (some src.id)))
                  (buildFieldsCore src jsDate row)
              else buildFieldsCore src jsDate row := by
          rw [buildRawProduct, applySkuNorm, hsku]
        rw [happ]
        by_cases hs : s ≠ ""
        · rw [if_pos hs]
          exact mapGet_mapSet_other _ _ _ (by decide) _
        · rw [if_neg hs]
      | num q => rw [buildRawProduct, applySkuNorm, hsku]
      | null => rw [buildRawProduct, applySkuNorm, hsku]
  rw [hpres]
  exact hcore

/-- Shape of the `sku` field of a built record: raw string, `null`, or
absent; after the normalization step still a string when it was one. -/
theorem buildRawProduct_sku_shape (src : SourceConfig) (jsDate : String → Bool)
    (row : List String) :
    mapGet "sku" (buildRawProduct src jsDate row) = none
    ∨ mapGet "sku" (buildRawProduct src jsDate row) = some Value.null
    ∨ ∃ s, mapGet "sku" (buildRawProduct src jsDate row) = some (Value.str s) := by
  have hcore :
      mapGet "sku" (buildFieldsCore src jsDate row) = none
      ∨ mapGet "sku" (buildFieldsCore src jsDate row) = some Value.null
      ∨ ∃ s, mapGet "sku" (buildFieldsCore src jsDate row) = some (Value.str s) := by
    rcases mapGet_buildFold (fun fc => extractValue jsDate row fc.1 fc.2)
      "sku" src.columns
      [("brand", Value.str src.name), ("tolerance", Value.num src.tolerance)] with h | ⟨fc, _, hkey, heq⟩
    · left
      rw [buildFieldsCore, h]
      simp [mapGet]
    · rw [buildFieldsCore, heq, hkey]
      rcases extractValue_sku_shape jsDate row fc.2 with ⟨s, h'⟩ | h'
      · right; right; exact ⟨s, by rw [h']⟩
      · right; left; rw [h']
  rcases hcore with h | h | ⟨s, h⟩
  · left
    rw [buildRawProduct, applySkuNorm, h]
    exact h
  · right; left
    rw [buildRawProduct, applySkuNorm, h]
    exact h
  · have happ : buildRawProduct src jsDate row
        = if s ≠ "" then
            mapSet "sku" (Value.str (normalizeSku s (some src.id)))
              (buildFieldsCore src jsDate row)
          else buildFieldsCore src jsDate row := by
      rw [buildRawProduct, applySkuNorm, h]
    right; right
    rw [happ]
    by_cases hs : s ≠ ""
    · rw [if_pos hs]
      exact ⟨_, mapGet_mapSet_self _ _ _⟩
    · rw [if_neg hs]
      exact ⟨s, h⟩

/-- C6 counterexample: a Nike-source row whose SKU cell is `-` and whose
price cell is `-5` is persisted with a whitespace-only SKU (the hyphen→space
normalization turns `-` into a single space, which is truthy and survives the
drop-filter) and a negative price, contradicting the claim that
whitespace-only-SKU rows are dropped and that persisted prices are
non-negative-or-null. -/
theorem c6_counterexample :
    (importSourceFromRows cfgC6 jdNo rowsC6).map
        (List.map (fun fs => (mapGet "sku" fs, mapGet "price" fs)))
      = Except.ok [(some (Value.str " "), some (Value.num (-5)))]
    ∧ strTrim " " = ""
    ∧ (-5 : ℚ) < 0 := by
  refine ⟨?_, by decide, by norm_num⟩
  simp +decide [importSourceFromRows, importPipeline, buildRawProduct, buildFieldsCore,
    applySkuNorm, extractValue, colLetterToIndex, parsePrice, parseFloatQ,
    cleanPriceChars, digitsVal, parseDate, normalizeSku, mapGet, mapSet, optTruthy,
    vTruthy, strTrim, trimChars, replaceAll, strLower, strUpper, containsSub, jsWs,
    adidasKeep, cfgC6, rowsC6, jdNo, Except.map]

/-- C6 amended: every persisted record has a non-empty (though possibly
whitespace-only, via the hyphen→space brands) `sku` string — rows whose
`sku` field ends up empty or null are dropped, so the 3-row batch with one
blank SKU persists exactly 2 records — and a `price` field that is absent, a
parsed number (possibly negative) or null, never NaN and never a raw
string. -/
theorem c6_amended :
    (∀ (src : SourceConfig) (jsDate : String → Bool) (allRows : List (List String))
        (products : List (List (String × Value))),
        importSourceFromRows src jsDate allRows = Except.ok products →
        ∀ p ∈ products,
          (∃ s, mapGet "sku" p = some (Value.str s) ∧ s ≠ "")
          ∧ (mapGet "price" p = none ∨ mapGet "price" p = some Value.null
              ∨ ∃ q, mapGet "price" p = some (Value.num q)))
    ∧ Except.map List.length (importSourceFromRows cfg3row jdNo rows3row)
        = Except.ok 2 := by
  constructor
  · intro src jsDate allRows products hok p hp
    have hprods : products = importPipeline src jsDate (allRows.drop src.headerRow) := by
      rw [importSourceFromRows] at hok
      split at hok
      · cases hok
      · exact (Except.ok.injEq _ _ ▸ hok).symm
    subst hprods
    rw [importPipeline] at hp
    have hmemf := List.mem_filter.mp hp
    obtain ⟨row, _, hrow⟩ := List.mem_map.mp hmemf.1
    have htruthy := hmemf.2
    constructor
    · rcases buildRawProduct_sku_shape src jsDate row with h | h | ⟨s, h⟩ <;>
        rw [← hrow] at *
      · rw [h] at htruthy
        simp [optTruthy] at htruthy
      · rw [h] at htruthy
        simp [optTruthy, vTruthy] at htruthy
      · refine ⟨s, h, ?_⟩
        rw [h] at htruthy
        simpa [optTruthy, vTruthy] using htruthy
    · rw [← hrow]
      exact buildRawProduct_price_shape src jsDate row
  · simp +decide [importSourceFromRows, importPipeline, buildRawProduct, buildFieldsCore,
      applySkuNorm, extractValue, colLetterToIndex, parsePrice, parseFloatQ,
      cleanPriceChars, digitsVal, parseDate, normalizeSku, mapGet, mapSet, optTruthy,
      vTruthy, strTrim, trimChars, replaceAll, strLower, strUpper, containsSub, jsWs,
      adidasKeep, cfg3row, rows3row, jdNo, Except.map]

/-- Witness for C6 amended at the concrete 3-row batch. -/
theorem c6_amended_witness :
    importSourceFromRows cfg3row jdNo rows3row = Except.ok [fsA1, fsC3]
    ∧ fsA1 ∈ [fsA1, fsC3]
    ∧ ((∃ s, mapGet "sku" fsA1 = some (Value.str s) ∧ s ≠ "")
        ∧ (mapGet "price" fsA1 = none ∨ mapGet "price" fsA1 = some Value.null
            ∨ ∃ q, mapGet "price" fsA1 = some (Value.num q))) := by
  have hok : importSourceFromRows cfg3row jdNo rows3row = Except.ok [fsA1, fsC3] := by
    simp +decide [importSourceFromRows, importPipeline, buildRawProduct, buildFieldsCore,
      applySkuNorm, extractValue, colLetterToIndex, parsePrice, parseFloatQ,
      cleanPriceChars, digitsVal, parseDate, normalizeSku, mapGet, mapSet, optTruthy,
      vTruthy, strTrim, trimChars, replaceAll, strLower, strUpper, containsSub, jsWs,
      adidasKeep, cfg3row, rows3row, jdNo, fsA1, fsC3]
    all_goals norm_num
  exact ⟨hok, List.mem_cons_self _ _,
    c6_amended.1 cfg3row jdNo rows3row [fsA1, fsC3] hok fsA1 (List.mem_cons_self _ _)⟩

/-! ## Lemmas about trimming (for the SKU normalizer) -/

theorem dropWhile_eq_self_of_head (p : Char → Bool) :
    ∀ l : List Char, (∀ c, l.head? = some c → p c = false) → l.dropWhile p = l := by
  intro l h
  cases l with
  | nil => rfl
  | cons x xs =>
    rw [List.dropWhile_cons, if_neg (by simp [h x rfl])]

theorem head?_dropWhile_false (p : Char → Bool) :
    ∀ l : List Char, ∀ c, (l.dropWhile p).head? = some c → p c = false := by
  intro l
  induction l with
  | nil => intro c hc; cases hc
  | cons x xs ih =>
    intro c hc
    rw [List.dropWhile_cons] at hc
    by_cases hx : p x = true
    · rw [if_pos hx] at hc
      exact ih c hc
    · rw [if_neg hx] at hc
      simp only [List.head?_cons, Option.some.injEq] at hc
      rw [← hc]
      exact Bool.not_eq_true _ ▸ hx

theorem getLast?_dropWhile (p : Char → Bool) :
    ∀ l : List Char, l.dropWhile p ≠ [] → (l.dropWhile p).getLast? = l.getLast? := by
  intro l
  induction l with
  | nil => intro h; exact absurd rfl h
  | cons x xs ih =>
    intro h
    rw [List.dropWhile_cons] at h ⊢
    by_cases hx : p x = true
    · rw [if_pos hx] at h ⊢
      rw [ih h]
      have hxs : xs ≠ [] := by
        intro he
        rw [he] at h
        exact h rfl
      cases xs with
      | nil => exact absurd rfl hxs
      | cons y ys => rw [List.getLast?_cons_cons]
    · rw [if_neg hx]

theorem trimChars_eq_self (l : List Char)
    (h1 : ∀ c, l.head? = some c → jsWs c = false)
    (h2 : ∀ c, l.getLast? = some c → jsWs c = false) : trimChars l = l := by
  rw [trimChars, dropWhile_eq_self_of_head jsWs l h1,
    dropWhile_eq_self_of_head jsWs l.reverse
      (fun c hc => h2 c (by rwa [List.head?_reverse] at hc))]
  exact List.reverse_reverse l

theorem trimChars_head (l : List Char) :
    ∀ c, (trimChars l).head? = some c → jsWs c = false := by
  intro c hc
  rw [trimChars, List.head?_reverse] at hc
  have hne : (l.dropWhile jsWs).reverse.dropWhile jsWs ≠ [] := by
    intro he
    rw [he] at hc
    cases hc
  rw [getLast?_dropWhile jsWs _ hne, List.getLast?_reverse] at hc
  exact head?_dropWhile_false jsWs l c hc

theorem trimChars_getLast (l : List Char) :
    ∀ c, (trimChars l).getLast? = some c → jsWs c = false := by
  intro c hc
  rw [trimChars, List.getLast?_reverse] at hc
  exact head?_dropWhile_false jsWs _ c hc

theorem trimChars_idem (l : List Char) : trimChars (trimChars l) = trimChars l :=
  trimChars_eq_self _ (trimChars_head l) (trimChars_getLast l)

theorem normalizeSku_idem_default (s : String) (b : Option String)
    (hb : ¬(b = some "nike" ∨ b = some "jordan")) :
    normalizeSku (normalizeSku s b) b = normalizeSku s b := by
  by_cases hs : s = ""
  · simp [normalizeSku, hs]
  · have e1 : normalizeSku s b = strTrim s := by
      rw [normalizeSku, if_neg hs, if_neg hb]
    rw [e1]
    by_cases ht : strTrim s = ""
    · rw [normalizeSku, if_pos ht, ht]
    · rw [normalizeSku, if_neg ht, if_neg hb]
      have e2 : strTrim (strTrim s) = ⟨trimChars (trimChars s.data)⟩ := rfl
      rw [e2, trimChars_idem]
      rfl

theorem normalizeSku_idem_boundary (s : String) (b : Option String)
    (h1 : (strTrim s).data.head? ≠ some '-')
    (h2 : (strTrim s).data.getLast? ≠ some '-') :
    normalizeSku (normalizeSku s b) b = normalizeSku s b := by
  by_cases hb : b = some "nike" ∨ b = some "jordan"
  · by_cases hs : s = ""
    · simp [normalizeSku, hs]
    · have e1 : normalizeSku s b = replaceAll '-' ' ' (strTrim s) := by
        rw [normalizeSku, if_neg hs, if_pos hb]
      rw [e1]
      by_cases hr : replaceAll '-' ' ' (strTrim s) = ""
      · rw [normalizeSku, if_pos hr, hr]
      · rw [normalizeSku, if_neg hr, if_pos hb]
        have hdata : (replaceAll '-' ' ' (strTrim s)).data
            = (trimChars s.data).map (fun x => if x = '-' then ' ' else x) := rfl
        have hhead : ∀ c, ((trimChars s.data).map
            (fun x => if x = '-' then ' ' else x)).head? = some c → jsWs c = false := by
          intro c hc
          rw [List.head?_map] at hc
          rcases Option.map_eq_some'.mp hc with ⟨c0, hc0, hfc⟩
          have hw : jsWs c0 = false := trimChars_head s.data c0 hc0
          have hne : c0 ≠ '-' := by
            intro he
            exact h1 (by rw [show (strTrim s).data = trimChars s.data from rfl, hc0, he])
          rw [← hfc]
          simp only [if_neg hne]
          exact hw
        have hlast : ∀ c, ((trimChars s.data).map
            (fun x => if x = '-' then ' ' else x)).getLast? = some c → jsWs c = false := by
          intro c hc
          rw [List.getLast?_map] at hc
          rcases Option.map_eq_some'.mp hc with ⟨c0, hc0, hfc⟩
          have hw : jsWs c0 = false := trimChars_getLast s.data c0 hc0
          have hne : c0 ≠ '-' := by
            intro he
            exact h2 (by rw [show (strTrim s).data = trimChars s.data from rfl, hc0, he])
          rw [← hfc]
          simp only [if_neg hne]
          exact hw
        have hA : trimChars ((trimChars s.data).map (fun x => if x = '-' then ' ' else x))
            = (trimChars s.data).map (fun x => if x = '-' then ' ' else x) :=
          trimChars_eq_self _ hhead hlast
        have e3 : replaceAll '-' ' ' (strTrim (replaceAll '-' ' ' (strTrim s)))
            = ⟨(trimChars ((trimChars s.data).map
                (fun x => if x = '-' then ' ' else x))).map
                (fun x => if x = '-' then ' ' else x)⟩ := rfl
        rw [e3, hA, List.map_map]
        have hff : ((fun x => if x = '-' then ' ' else x) ∘
            (fun x => if x = '-' then ' ' else x))
            = (fun x : Char => if x = '-' then ' ' else x) := by
          funext c
          by_cases hc : c = '-' <;> simp [hc]
        rw [hff]
        rfl
  · exact normalizeSku_idem_default s b hb

/-- C7 counterexample: the SKU normalizer is not idempotent: for the
nike/jordan rule a boundary hyphen becomes a boundary space, which a second
application trims away (`"-A"` normalizes to `" A"`, then to `"A"`). -/
theorem c7_counterexample :
    normalizeSku (normalizeSku "-A" (some "nike")) (some "nike")
      ≠ normalizeSku "-A" (some "nike") := by decide

/-- C7 amended: the SKU normalizer is idempotent for every brand id other
than nike/jordan, and for nike/jordan whenever the trimmed SKU neither starts
nor ends with a hyphen. -/
theorem c7_amended :
    ∀ (s : String) (b : Option String),
      (b ≠ some "nike" ∧ b ≠ some "jordan" →
        normalizeSku (normalizeSku s b) b = normalizeSku s b)
      ∧ ((strTrim s).data.head? ≠ some '-' ∧ (strTrim s).data.getLast? ≠ some '-' →
        normalizeSku (normalizeSku s b) b = normalizeSku s b) :=
  fun s b =>
    ⟨fun h => normalizeSku_idem_default s b (by
        rintro (h' | h')
        · exact h.1 h'
        · exact h.2 h'),
     fun h => normalizeSku_idem_boundary s b h.1 h.2⟩

/-- Witness for C7 amended: both branches at concrete SKUs. -/
theorem c7_amended_witness :
    ((some "puma" : Option String) ≠ some "nike"
      ∧ (some "puma" : Option String) ≠ some "jordan"
      ∧ normalizeSku (normalizeSku " A-1 " (some "puma")) (some "puma")
          = normalizeSku " A-1 " (some "puma"))
    ∧ ((strTrim "A-1").data.head? ≠ some '-'
      ∧ (strTrim "A-1").data.getLast? ≠ some '-'
      ∧ normalizeSku (normalizeSku "A-1" (some "nike")) (some "nike")
          = normalizeSku "A-1" (some "nike")) :=
  ⟨⟨by decide, by decide, (c7_amended " A-1 " (some "puma")).1 ⟨by decide, by decide⟩⟩,
   ⟨by decide, by decide, (c7_amended "A-1" (some "nike")).2 ⟨by decide, by decide⟩⟩⟩

/-! ## Lemmas about the lookup index -/

theorem mapGet_isSome_mapSet {κ α : Type} [DecidableEq κ] (k k' : κ) (v : α)
    (m : List (κ × α)) (h : (mapGet k m).isSome = true) :
    (mapGet k (mapSet k' v m)).isSome = true := by
  by_cases he : k = k'
  · subst he
    rw [mapGet_mapSet_self]
    rfl
  · rw [mapGet_mapSet_other k' k v he m]
    exact h

theorem mem_mapSet {κ α : Type} [DecidableEq κ] (k : κ) (v : α) :
    ∀ (m : List (κ × α)) (e : κ × α), e ∈ mapSet k v m → e = (k, v) ∨ e ∈ m := by
  intro m
  induction m with
  | nil =>
    intro e he
    rw [mapSet] at he
    rcases List.mem_singleton.mp he with h
    exact Or.inl h
  | cons x xs ih =>
    intro e he
    rw [mapSet] at he
    by_cases hx : x.1 = k
    · rw [if_pos hx] at he
      rcases List.mem_cons.mp he with h | h
      · exact Or.inl h
      · exact Or.inr (List.mem_cons_of_mem _ h)
    · rw [if_neg hx] at he
      rcases List.mem_cons.mp he with h | h
      · exact Or.inr (h ▸ List.mem_cons_self _ _)
      · rcases ih e h with h' | h'
        · exact Or.inl h'
        · exact Or.inr (List.mem_cons_of_mem _ h')

theorem mapGet_eq_some_mem {κ α : Type} [DecidableEq κ] (k : κ) (v : α) :
    ∀ m : List (κ × α), mapGet k m = some v → (k, v) ∈ m := by
  intro m
  induction m with
  | nil => intro h; cases h
  | cons e es ih =>
    intro h
    rw [mapGet] at h
    by_cases he : e.1 = k
    · rw [if_pos he] at h
      rcases e with ⟨ek, ev⟩
      simp only [Option.some.injEq] at h
      simp only at he
      exact List.mem_cons.mpr (Or.inl (by rw [he, h]))
    · rw [if_neg he] at h
      exact List.mem_cons_of_mem _ (ih h)

theorem vendorFold_pres_isSome (key : String) :
    ∀ (l : List Product) (acc : List (String × Product)),
      (mapGet key acc).isSome = true →
      (mapGet key (l.foldl (fun m p => mapSet (brandKey p) p m) acc)).isSome = true := by
  intro l
  induction l with
  | nil => intro acc h; exact h
  | cons q l ih =>
    intro acc h
    rw [List.foldl_cons]
    exact ih _ (mapGet_isSome_mapSet _ _ _ _ h)

theorem mem_vendorFold (keyf : Product → String) :
    ∀ (l : List Product) (acc : List (String × Product)) (e : String × Product),
      e ∈ l.foldl (fun m p => mapSet (keyf p) p m) acc →
      e ∈ acc ∨ ∃ p ∈ l, e = (keyf p, p) := by
  intro l
  induction l with
  | nil => intro acc e he; exact Or.inl he
  | cons q l ih =>
    intro acc e he
    rw [List.foldl_cons] at he
    rcases ih _ e he with h | ⟨p, hp, hep⟩
    · rcases mem_mapSet _ _ _ _ h with h' | h'
      · exact Or.inr ⟨q, List.mem_cons_self _ _, h'⟩
      · exact Or.inl h'
    · exact Or.inr ⟨p, List.mem_cons_of_mem _ hp, hep⟩

/-- C8 counterexample: the index is not keyed by the default brand-agnostic
normalization: a `Nike / Jordan` record with SKU `AB-1` is indexed under
`AB 1` (brand-aware hyphen→space), so the index differs from the
spec-described one and a lookup under the default normalization misses. -/
theorem c8_counterexample :
    vendorProductMap [prodNikeC8] ≠ vendorProductMapSpec [prodNikeC8]
    ∧ mapGet (normalizeSku prodNikeC8.sku none) (vendorProductMap [prodNikeC8]) = none
    ∧ mapGet (normalizeSku prodNikeC8.sku none) (vendorProductMapSpec [prodNikeC8])
        = some prodNikeC8 := by
  refine ⟨by decide, by decide, by decide⟩

/-- C8 amended: the lookup index maps, over the full store, each record's
brand-aware normalized SKU (brand id `nike` when the brand name contains
`nike` case-insensitively, else the lowercased brand name — so nike/jordan
records are keyed hyphen→space, everything else trim-only) to a record, and
every index entry arises that way from a stored record. -/
theorem c8_amended :
    ∀ ps : List Product,
      (∀ p ∈ ps, (mapGet (brandKey p) (vendorProductMap ps)).isSome = true)
      ∧ (∀ (k : String) (p : Product), mapGet k (vendorProductMap ps) = some p →
          p ∈ ps ∧ k = brandKey p) := by
  intro ps
  constructor
  · intro p hp
    rw [vendorProductMap]
    have main : ∀ (l : List Product) (acc : List (String × Product)), p ∈ l →
        (mapGet (brandKey p) (l.foldl (fun m q => mapSet (brandKey q) q m) acc)).isSome
          = true := by
      intro l
      induction l with
      | nil => intro acc h; cases h
      | cons q l ih =>
        intro acc h
        rw [List.foldl_cons]
        rcases List.mem_cons.mp h with h' | h'
        · subst h'
          exact vendorFold_pres_isSome _ _ _
            (by rw [mapGet_mapSet_self]; rfl)
        · exact ih _ h'
    exact main ps [] hp
  · intro k p hk
    have hmem := mapGet_eq_some_mem k p _ hk
    rw [vendorProductMap] at hmem
    rcases mem_vendorFold brandKey ps [] (k, p) hmem with h | ⟨q, hq, he⟩
    · cases h
    · have h1 : k = brandKey q := congrArg Prod.fst he
      have h2 : p = q := congrArg Prod.snd he
      subst h2
      exact ⟨hq, h1⟩

/-- Witness for C8 amended at a concrete one-record store. -/
theorem c8_amended_witness :
    prodNikeC8 ∈ [prodNikeC8]
    ∧ (mapGet (brandKey prodNikeC8) (vendorProductMap [prodNikeC8])).isSome = true
    ∧ (mapGet "AB 1" (vendorProductMap [prodNikeC8]) = some prodNikeC8 →
        prodNikeC8 ∈ [prodNikeC8] ∧ "AB 1" = brandKey prodNikeC8) :=
  ⟨List.mem_cons_self _ _,
   (c8_amended [prodNikeC8]).1 prodNikeC8 (List.mem_cons_self _ _),
   (c8_amended [prodNikeC8]).2 "AB 1" prodNikeC8⟩

/-! ## Lemmas about the overlay map fold -/

theorem option_orElse_none {α : Type} : ∀ x : Option α, (x <|> none) = x := by
  intro x
  cases x <;> rfl

theorem option_none_orElse {α : Type} : ∀ x : Option α, (none <|> x) = x := by
  intro x
  cases x <;> rfl

theorem mem_keys_mapSet {κ α : Type} [DecidableEq κ] (k k' : κ) (v : α) :
    ∀ m : List (κ × α),
      (k' ∈ (mapSet k v m).map Prod.fst ↔ k' = k ∨ k' ∈ m.map Prod.fst) := by
  intro m
  induction m with
  | nil => simp [mapSet]
  | cons x xs ih =>
    rw [mapSet]
    by_cases hx : x.1 = k
    · rw [if_pos hx]
      simp only [List.map_cons, List.mem_cons]
      constructor
      · rintro (h | h)
        · exact Or.inl h
        · exact Or.inr (Or.inr h)
      · rintro (h | h | h)
        · exact Or.inl h
        · exact Or.inl (h.trans hx)
        · exact Or.inr h
    · rw [if_neg hx]
      simp only [List.map_cons, List.mem_cons, ih]
      tauto

theorem keys_nodup_mapSet {κ α : Type} [DecidableEq κ] (k : κ) (v : α) :
    ∀ m : List (κ × α), (m.map Prod.fst).Nodup → ((mapSet k v m).map Prod.fst).Nodup := by
  intro m
  induction m with
  | nil => intro _; simp [mapSet]
  | cons x xs ih =>
    intro h
    rw [List.map_cons, List.nodup_cons] at h
    rw [mapSet]
    by_cases hx : x.1 = k
    · rw [if_pos hx]
      rw [List.map_cons, List.nodup_cons]
      exact ⟨hx ▸ h.1, h.2⟩
    · rw [if_neg hx]
      rw [List.map_cons, List.nodup_cons]
      refine ⟨?_, ih h.2⟩
      intro hmem
      rcases (mem_keys_mapSet k x.1 v xs).mp hmem with h' | h'
      · exact hx h'
      · exact h.1 h'

theorem reconcileFold_keys_nodup (m : UploadMapping) (vmap : List (String × Product)) :
    ∀ (rows : List (List (String × String))) (acc : List (Nat × ComplianceResult)),
      (acc.map Prod.fst).Nodup →
      ((rows.foldl (fun pm row =>
          match processUploadRow m vmap row with
          | some (pid, r) => mapSet pid r pm
          | none => pm) acc).map Prod.fst).Nodup := by
  intro rows
  induction rows with
  | nil => intro acc h; exact h
  | cons row rows ih =>
    intro acc h
    rw [List.foldl_cons]
    cases hp : processUploadRow m vmap row with
    | none => simp only [hp]; exact ih acc h
    | some pr =>
      rcases pr with ⟨pid, r⟩
      simp only [hp]
      exact ih _ (keys_nodup_mapSet pid r acc h)

theorem reconcileMap_keys_nodup (m : UploadMapping) (ps : List Product)
    (rows : List (List (String × String))) :
    ((reconcileMap m ps rows).map Prod.fst).Nodup := by
  rw [reconcileMap]
  exact reconcileFold_keys_nodup m (vendorProductMap ps) rows [] (by simp)

theorem foldl_reconcile_get (m : UploadMapping) (vmap : List (String × Product))
    (pid : Nat) :
    ∀ (rows : List (List (String × String))) (acc : List (Nat × ComplianceResult)),
      mapGet pid (rows.foldl (fun pm row =>
          match processUploadRow m vmap row with
          | some (i, r) => mapSet i r pm
          | none => pm) acc)
        = ((rows.filterMap (fun row =>
            match processUploadRow m vmap row with
            | some (i, r) => if i = pid then some r else none
            | none => none)).getLast? <|> mapGet pid acc) := by
  intro rows
  induction rows with
  | nil =>
    intro acc
    rw [List.foldl_nil, List.filterMap_nil, List.getLast?_nil, option_none_orElse]
  | cons row rows ih =>
    intro acc
    rw [List.foldl_cons, List.filterMap_cons]
    cases hp : processUploadRow m vmap row with
    | none =>
      simp only [hp]
      exact ih acc
    | some pr =>
      rcases pr with ⟨i, r⟩
      simp only [hp]
      by_cases hi : i = pid
      · subst hi
        rw [if_pos rfl, ih (mapSet i r acc), mapGet_mapSet_self]
        cases hL : (rows.filterMap (fun row =>
            match processUploadRow m vmap row with
            | some (j, s) => if j = i then some s else none
            | none => none)) with
        | nil =>
          show (([] : List ComplianceResult).getLast? <|> some r)
            = ([r].getLast? <|> mapGet i acc)
          rfl
        | cons y ys =>
          show ((y :: ys).getLast? <|> some r)
            = ((r :: y :: ys).getLast? <|> mapGet i acc)
          rw [List.getLast?_cons_cons]
          cases hys : (y :: ys).getLast? with
          | none => simp at hys
          | some z => rfl
      · rw [if_neg hi, ih (mapSet i r acc),
          mapGet_mapSet_other i pid r (fun he => hi he.symm) acc]

/-- C10: when several uploaded rows match the same stored product, the
overlay kept for that product is the one computed from the last such row in
file order (JS `Map.set` overwrites), and the overlay map holds at most one
entry per product id. -/
theorem c10_last_write_wins :
    ∀ (m : UploadMapping) (ps : List Product) (rows : List (List (String × String)))
      (pid : Nat),
      mapGet pid (reconcileMap m ps rows)
        = (rows.filterMap (fun row =>
            match processUploadRow m (vendorProductMap ps) row with
            | some (i, r) => if i = pid then some r else none
            | none => none)).getLast?
      ∧ ((reconcileMap m ps rows).map Prod.fst).Nodup := by
  intro m ps rows pid
  refine ⟨?_, reconcileMap_keys_nodup m ps rows⟩
  rw [reconcileMap]
  rw [foldl_reconcile_get m (vendorProductMap ps) pid rows []]
  rw [show mapGet pid ([] : List (Nat × ComplianceResult)) = none from rfl,
    option_orElse_none]

/-! ## Lemmas about the statistics -/

theorem exists_of_findSome?_eq_some {α β : Type} (f : α → Option β) :
    ∀ (l : List α) (b : β), l.findSome? f = some b → ∃ a ∈ l, f a = some b := by
  intro l
  induction l with
  | nil => intro b h; cases h
  | cons x xs ih =>
    intro b h
    rw [List.findSome?_cons] at h
    cases hx : f x with
    | some c =>
      rw [hx] at h
      exact ⟨x, List.mem_cons_self _ _, hx.trans h⟩
    | none =>
      rw [hx] at h
      rcases ih b h with ⟨a, ha, hfa⟩
      exact ⟨a, List.mem_cons_of_mem _ ha, hfa⟩

theorem vendorProductMap_get_mem (ps : List Product) (k : String) (p : Product)
    (h : mapGet k (vendorProductMap ps) = some p) : p ∈ ps := by
  have hmem := mapGet_eq_some_mem k p _ h
  rw [vendorProductMap] at hmem
  rcases mem_vendorFold brandKey ps [] (k, p) hmem with h' | ⟨q, hq, he⟩
  · cases h'
  · have : p = q := congrArg Prod.snd he
    exact this ▸ hq

theorem lookupVendor_mem (ps : List Product) (raw : String) (p : Product)
    (h : lookupVendor (vendorProductMap ps) raw = some p) : p ∈ ps := by
  rw [lookupVendor] at h
  by_cases hr : raw = ""
  · rw [if_pos hr] at h
    cases h
  · rw [if_neg hr] at h
    rcases exists_of_findSome?_eq_some _ _ _ h with ⟨c, _, hc⟩
    rw [tryCand] at hc
    cases hg : mapGet (normalizeSku c none) (vendorProductMap ps) with
    | some q =>
      rw [hg] at hc
      cases hc
      exact vendorProductMap_get_mem ps _ _ hg
    | none =>
      rw [hg, option_none_orElse] at hc
      exact vendorProductMap_get_mem ps _ _ hc

theorem processUploadRow_some_shape (m : UploadMapping) (vmap : List (String × Product))
    (row : List (String × String)) (pid : Nat) (r : ComplianceResult)
    (h : processUploadRow m vmap row = some (pid, r)) :
    ∃ p, lookupVendor vmap (rawSkuOf m row) = some p ∧ pid = p.id := by
  cases hl : lookupVendor vmap (rawSkuOf m row) with
  | none => rw [processUploadRow, hl] at h; cases h
  | some p =>
    refine ⟨p, rfl, ?_⟩
    cases hp : p.price with
    | none => simp [processUploadRow, hl, hp] at h
    | some mapPrice =>
      cases ho : ourPriceOf m row with
      | none => simp [processUploadRow, hl, hp, ho] at h
      | some our =>
        simp only [processUploadRow, hl, hp, ho, Option.some.injEq, Prod.mk.injEq] at h
        exact h.1.symm

theorem reconcileMap_keys_sub (m : UploadMapping) (ps : List Product)
    (rows : List (List (String × String))) :
    ∀ k ∈ (reconcileMap m ps rows).map Prod.fst, k ∈ ps.map Product.id := by
  rw [reconcileMap]
  have main : ∀ (rows : List (List (String × String)))
      (acc : List (Nat × ComplianceResult)),
      (∀ k ∈ acc.map Prod.fst, k ∈ ps.map Product.id) →
      ∀ k ∈ ((rows.foldl (fun pm row =>
          match processUploadRow m (vendorProductMap ps) row with
          | some (pid, r) => mapSet pid r pm
          | none => pm) acc).map Prod.fst), k ∈ ps.map Product.id := by
    intro rows
    induction rows with
    | nil => intro acc h; exact h
    | cons row rows ih =>
      intro acc h
      rw [List.foldl_cons]
      cases hp : processUploadRow m (vendorProductMap ps) row with
      | none => simp only [hp]; exact ih acc h
      | some pr =>
        rcases pr with ⟨pid, r⟩
        simp only [hp]
        refine ih _ ?_
        intro k hk
        rcases (mem_keys_mapSet pid k r acc).mp hk with h' | h'
        · rcases processUploadRow_some_shape m _ row pid r hp with ⟨p, hlook, hpid⟩
          have hpmem : p ∈ ps := lookupVendor_mem ps _ p hlook
          rw [h', hpid]
          exact List.mem_map_of_mem Product.id hpmem
        · exact h k h'
  exact main rows [] (by simp)

theorem mapGet_of_mem_nodup {κ α : Type} [DecidableEq κ] :
    ∀ m : List (κ × α), (m.map Prod.fst).Nodup →
      ∀ (k : κ) (v : α), (k, v) ∈ m → mapGet k m = some v := by
  intro m
  induction m with
  | nil => intro _ k v h; cases h
  | cons e es ih =>
    intro hnd k v h
    rw [List.map_cons, List.nodup_cons] at hnd
    rcases List.mem_cons.mp h with h' | h'
    · rw [mapGet, ← h']
      simp
    · rw [mapGet]
      have hne : e.1 ≠ k := by
        intro he
        exact hnd.1 (he ▸ List.mem_map_of_mem Prod.fst h')
      rw [if_neg hne]
      exact ih hnd.2 k v h'

theorem checkedPairs_keys_sublist (ps : List Product) (pm : List (Nat × ComplianceResult)) :
    ((ps.filterMap (fun p => (mapGet p.id pm).map (fun r => (p.id, r)))).map Prod.fst).Sublist
      (ps.map Product.id) := by
  induction ps with
  | nil => simp
  | cons p rest ih =>
    rw [List.filterMap_cons]
    cases hg : mapGet p.id pm with
    | none =>
      simp only [Option.map_none']
      rw [List.map_cons]
      exact ih.cons _
    | some r =>
      simp only [Option.map_some']
      rw [List.map_cons, List.map_cons]
      exact ih.cons₂ _

theorem mem_checkedPairs_iff (ps : List Product) (pm : List (Nat × ComplianceResult))
    (hkeys : (pm.map Prod.fst).Nodup)
    (hsub : ∀ k ∈ pm.map Prod.fst, k ∈ ps.map Product.id) :
    ∀ e : Nat × ComplianceResult,
      (e ∈ ps.filterMap (fun p => (mapGet p.id pm).map (fun r => (p.id, r))) ↔ e ∈ pm) := by
  intro e
  constructor
  · intro h
    rcases List.mem_filterMap.mp h with ⟨p, _, hsome⟩
    rcases Option.map_eq_some'.mp hsome with ⟨r, hr, he⟩
    rw [← he]
    exact mapGet_eq_some_mem _ _ _ hr
  · intro h
    rcases e with ⟨k, r⟩
    have hget : mapGet k pm = some r := mapGet_of_mem_nodup pm hkeys k r h
    have hk : k ∈ ps.map Product.id := hsub k (List.mem_map_of_mem Prod.fst h)
    rcases List.mem_map.mp hk with ⟨p, hp, hpk⟩
    refine List.mem_filterMap.mpr ⟨p, hp, ?_⟩
    rw [hpk, hget, Option.map_some']

theorem checkedPairs_perm (ps : List Product) (pm : List (Nat × ComplianceResult))
    (hids : (ps.map Product.id).Nodup)
    (hkeys : (pm.map Prod.fst).Nodup)
    (hsub : ∀ k ∈ pm.map Prod.fst, k ∈ ps.map Product.id) :
    (ps.filterMap (fun p => (mapGet p.id pm).map (fun r => (p.id, r)))).Perm pm := by
  apply List.perm_of_nodup_nodup_toFinset_eq
  · exact List.Nodup.of_map Prod.fst
      (List.Nodup.sublist (checkedPairs_keys_sublist ps pm) hids)
  · exact List.Nodup.of_map Prod.fst hkeys
  · apply Finset.ext
    intro e
    rw [List.mem_toFinset, List.mem_toFinset]
    exact mem_checkedPairs_iff ps pm hkeys hsub e

theorem checkedOf_map_pairs (ps : List Product) (pm : List (Nat × ComplianceResult)) :
    (checkedOf ps pm).map (fun pr => (pr.1.id, pr.2))
      = ps.filterMap (fun p => (mapGet p.id pm).map (fun r => (p.id, r))) := by
  rw [checkedOf, List.map_filterMap]
  congr 1
  funext p
  cases mapGet p.id pm <;> rfl

theorem filterMap_length_filter {α β : Type} (f : α → Option β) (l : List α) :
    (l.filterMap f).length = (l.filter (fun a => (f a).isSome)).length := by
  induction l with
  | nil => rfl
  | cons x xs ih =>
    rw [List.filterMap_cons, List.filter_cons]
    cases hx : f x with
    | none => simp [hx, ih]
    | some b => simp [hx, ih]

theorem mem_insertDesc (x : String × Nat) :
    ∀ (l : List (String × Nat)) (y : String × Nat), y ∈ insertDesc x l → y = x ∨ y ∈ l := by
  intro l
  induction l with
  | nil =>
    intro y hy
    exact Or.inl (List.mem_singleton.mp hy)
  | cons z zs ih =>
    intro y hy
    rw [insertDesc] at hy
    by_cases hz : z.2 < x.2
    · rw [if_pos hz] at hy
      rcases List.mem_cons.mp hy with h | h
      · exact Or.inl h
      · exact Or.inr h
    · rw [if_neg hz] at hy
      rcases List.mem_cons.mp hy with h | h
      · exact Or.inr (h ▸ List.mem_cons_self _ _)
      · rcases ih y h with h' | h'
        · exact Or.inl h'
        · exact Or.inr (List.mem_cons_of_mem _ h')

theorem pairwise_insertDesc (x : String × Nat) :
    ∀ l : List (String × Nat), l.Pairwise descRel → (insertDesc x l).Pairwise descRel := by
  intro l
  induction l with
  | nil => intro _; exact List.pairwise_singleton _ _
  | cons y ys ih =>
    intro h
    rcases List.pairwise_cons.mp h with ⟨hy, hys⟩
    rw [insertDesc]
    by_cases hyx : y.2 < x.2
    · rw [if_pos hyx]
      refine List.pairwise_cons.mpr ⟨?_, h⟩
      intro z hz
      rcases List.mem_cons.mp hz with h' | h'
      · exact h' ▸ Nat.le_of_lt hyx
      · exact Nat.le_trans (hy z h') (Nat.le_of_lt hyx)
    · rw [if_neg hyx]
      refine List.pairwise_cons.mpr ⟨?_, ih hys⟩
      intro z hz
      rcases mem_insertDesc x ys z hz with h' | h'
      · exact h' ▸ Nat.le_of_not_lt hyx
      · exact hy z h'

theorem pairwise_sortDescCount (l : List (String × Nat)) :
    (sortDescCount l).Pairwise descRel := by
  rw [sortDescCount]
  induction l with
  | nil => exact List.Pairwise.nil
  | cons x xs ih =>
    rw [List.foldr_cons]
    exact pairwise_insertDesc x _ ih

set_option maxHeartbeats 1600000 in
/-- C9: after a reconciliation run, products-checked equals the number of
stored records carrying an overlay, savings-at-risk equals the sum of
|difference| over exactly the overlays flagged as violations, and the
per-brand violation counts are listed in descending order of count (given
the store invariant that record ids are distinct). -/
theorem c9_stats :
    ∀ (m : UploadMapping) (ps : List Product) (rows : List (List (String × String))),
      (ps.map Product.id).Nodup →
      (computeStats ps (reconcileMap m ps rows)).productsChecked
          = (ps.filter (fun p => (mapGet p.id (reconcileMap m ps rows)).isSome)).length
      ∧ (computeStats ps (reconcileMap m ps rows)).totalSavingsAtRisk
          = specSavingsAtRisk (reconcileMap m ps rows)
      ∧ (computeStats ps (reconcileMap m ps rows)).brandsAffected.Pairwise descRel := by
  intro m ps rows hids
  have hkeys := reconcileMap_keys_nodup m ps rows
  have hsub := reconcileMap_keys_sub m ps rows
  have hperm := checkedPairs_perm ps (reconcileMap m ps rows) hids hkeys hsub
  refine ⟨?_, ?_, ?_⟩
  · show (reconcileMap m ps rows).length = _
    rw [← hperm.length_eq, ← checkedOf_map_pairs, List.length_map, checkedOf,
      filterMap_length_filter]
    exact congrArg List.length (List.filter_congr (fun p _ => by
      cases mapGet p.id (reconcileMap m ps rows) <;> rfl))
  · have hs : (computeStats ps (reconcileMap m ps rows)).totalSavingsAtRisk
        = ((List.filter (fun pr => pr.2.isViolation)
            (checkedOf ps (reconcileMap m ps rows))).map
              (fun pr => |pr.2.difference|)).sum := rfl
    rw [hs]
    have he : ((checkedOf ps (reconcileMap m ps rows)).filter
          (fun pr => pr.2.isViolation)).map (fun pr => |pr.2.difference|)
        = ((ps.filterMap (fun p =>
              (mapGet p.id (reconcileMap m ps rows)).map (fun r => (p.id, r)))).filter
            (fun e => e.2.isViolation)).map (fun e => |e.2.difference|) := by
      rw [← checkedOf_map_pairs, List.filter_map, List.map_map]
      rfl
    rw [he]
    have hpf : ((ps.filterMap (fun p =>
          (mapGet p.id (reconcileMap m ps rows)).map (fun r => (p.id, r)))).filter
            (fun e => e.2.isViolation)).Perm
          ((reconcileMap m ps rows).filter (fun e => e.2.isViolation)) :=
      hperm.filter (fun e => e.2.isViolation)
    have hpm2 : (((ps.filterMap (fun p =>
          (mapGet p.id (reconcileMap m ps rows)).map (fun r => (p.id, r)))).filter
            (fun e => e.2.isViolation)).map (fun e => |e.2.difference|)).Perm
          (((reconcileMap m ps rows).filter (fun e => e.2.isViolation)).map
            (fun e => |e.2.difference|)) :=
      hpf.map (fun e => |e.2.difference|)
    rw [specSavingsAtRisk]
    exact hpm2.sum_eq
  · have hb : (computeStats ps (reconcileMap m ps rows)).brandsAffected
        = sortDescCount (brandViolationCounts
            ((checkedOf ps (reconcileMap m ps rows)).filter
              (fun pr => pr.2.isViolation))) := rfl
    rw [hb]
    exact pairwise_sortDescCount _

/-- Witness for C9 at a concrete one-product, one-row check. -/
theorem c9_stats_witness :
    (ps9.map Product.id).Nodup
    ∧ ((computeStats ps9 (reconcileMap m0 ps9 rows9)).productsChecked
          = (ps9.filter (fun p => (mapGet p.id (reconcileMap m0 ps9 rows9)).isSome)).length
      ∧ (computeStats ps9 (reconcileMap m0 ps9 rows9)).totalSavingsAtRisk
          = specSavingsAtRisk (reconcileMap m0 ps9 rows9)
      ∧ (computeStats ps9 (reconcileMap m0 ps9 rows9)).brandsAffected.Pairwise descRel) :=
  ⟨by decide, c9_stats m0 ps9 rows9 (by decide)⟩
